import Mathlib

/-!
Verification of the streaming-pipeline core of `node-go-streams`
(module02/02-readable-writable-transform/note.md).

Bytes are modelled as `Nat` (one entry per byte). A Go `Read(p []byte)`
call is modelled by the size of the caller's buffer `p` and returns the
triple `(n, delivered, err)` together with the reader's new state:
`n` is the `int` the Go method returns, `delivered` is the list of bytes
the call actually copied into `p` (so `delivered.length ≤ size`), and
`err` is `none` for a nil error.
-/

set_option autoImplicit false

/-- Go `error` values that occur in the streaming core: `io.EOF` or some
other error (identified by a numeric code, enough to track propagation). -/
inductive IOError where
  | eof
  | other (code : Nat)
  deriving DecidableEq, Repr

/-- Result of one Go `Read` call: returned count `n`, the bytes copied
into the caller's buffer, and the returned error (`none` = nil). -/
abbrev ReadResult := Nat × List Nat × Option IOError

/-- A pull-side stream stage (Go `io.Reader`) with explicit state `σ`:
`read s size` models calling `Read(p)` with `len(p) = size` on state `s`. -/
structure Reader (σ : Type) where
  read : σ → Nat → ReadResult × σ

/-- Models the Go slice `buf[0:n]` of a freshly zero-filled buffer into
which `bytes` were copied at offset 0: the copied bytes (truncated at `n`)
followed by the zero fill.  Always has length `n`. -/
def bufSlice (bytes : List Nat) (n : Nat) : List Nat :=
  bytes.take n ++ List.replicate (n - bytes.length) 0

/-- The byte of `'0' + d` for a digit; used to build `fmt.Sprintf("%d", n)`. -/
def digitByte (d : Nat) : Nat := 48 + d

/-- Fuel-driven decimal digits accumulator for `natDecimal`. -/
def digitsAux : Nat → Nat → List Nat
  | 0, _ => []
  | fuel + 1, n =>
    if n < 10 then [digitByte n]
    else digitsAux fuel (n / 10) ++ [digitByte (n % 10)]

/-- The ASCII bytes of the decimal rendering of `n`, i.e. `fmt.Sprintf("%d", n)`. -/
def natDecimal (n : Nat) : List Nat := digitsAux (n + 1) n

/-- The ASCII bytes of `"value-"`. -/
def valueDashBytes : List Nat := [118, 97, 108, 117, 101, 45]

/-- The ASCII bytes of `"id,name\n"`, the header injected by `HeaderOnce`. -/
def headerBytes : List Nat := [105, 100, 44, 110, 97, 109, 101, 10]

/-- ASCII uppercasing of one byte, the action of `bytes.ToUpper` on each
byte of ASCII input: `'a'..'z'` map to `'A'..'Z'`, all else unchanged. -/
def toUpperByte (b : Nat) : Nat := if 97 ≤ b ∧ b ≤ 122 then b - 32 else b

/-- State of the Go `CounterSource` struct: fields `i` and `max`. -/
structure CounterSource where
  i : Nat
  max : Nat
  deriving DecidableEq, Repr

/-- The record `fmt.Sprintf("value-%d\n", i)` as bytes. -/
def CounterSource.record (i : Nat) : List Nat :=
  valueDashBytes ++ natDecimal i ++ [10]

/-- Go `CounterSource.Read`:
if `c.i >= c.max` return `(0, io.EOF)`;
else `n := copy(p, fmt.Sprintf("value-%d\n", c.i)); c.i++; return n, nil`.
`copy` transfers `min(len p, len src)` bytes and returns that count. -/
def CounterSource.Read (c : CounterSource) (size : Nat) : ReadResult × CounterSource :=
  if c.i ≥ c.max then ((0, [], some .eof), c)
  else
    let delivered := (CounterSource.record c.i).take size
    ((delivered.length, delivered, none), ⟨c.i + 1, c.max⟩)

/-- `CounterSource` as a `Reader`. -/
def CounterSource.reader : Reader CounterSource := ⟨CounterSource.Read⟩

/-- Go `Uppercase.Read`: allocate `buf := make([]byte, 4096)` (zeroed);
`n, err := u.r.Read(buf)`; if `n > 0` then `copy(p, bytes.ToUpper(buf[:n]))`;
`return n, err`.  The copy delivers `min(len p, n)` bytes but the call
returns the upstream `n` unchanged. -/
def Uppercase.Read {σ : Type} (r : Reader σ) (s : σ) (size : Nat) : ReadResult × σ :=
  let out := r.read s 4096
  let n := out.1.1
  ((n, ((bufSlice out.1.2.1 n).map toUpperByte).take size, out.1.2.2), out.2)

/-- `Uppercase` wrapping an upstream reader; its only state is the upstream's. -/
def Uppercase.reader {σ : Type} (r : Reader σ) : Reader σ :=
  ⟨fun s size => Uppercase.Read r s size⟩

/-- Go `HeaderOnce.Read`: if `!h.done` then `h.done = true;
return copy(p, "id,name\n"), nil`; else `return h.r.Read(p)`.
State is the `done` flag paired with the upstream state. -/
def HeaderOnce.Read {σ : Type} (r : Reader σ) (st : Bool × σ) (size : Nat) :
    ReadResult × (Bool × σ) :=
  if st.1 = false then
    let delivered := headerBytes.take size
    ((delivered.length, delivered, none), (true, st.2))
  else
    let out := r.read st.2 size
    (out.1, (true, out.2))

/-- `HeaderOnce` wrapping an upstream reader. -/
def HeaderOnce.reader {σ : Type} (r : Reader σ) : Reader (Bool × σ) :=
  ⟨HeaderOnce.Read r⟩

/-- Go `io.Copy(dst, src)` with a collecting sink: loop
`nr, er := src.Read(buf)` with `len(buf) = 32*1024`; if `nr > 0` write
`buf[0:nr]` to the sink (modelled by appending to `acc`); if `er == io.EOF`
stop with nil error; if `er != nil` stop with `er`; else loop.  `fuel`
bounds the number of iterations; `none` means fuel ran out before the
loop terminated. -/
def ioCopyLoop {σ : Type} (r : Reader σ) : Nat → σ → List Nat → Option (List Nat × Option IOError)
  | 0, _, _ => none
  | fuel + 1, s, acc =>
    let out := r.read s 32768
    let acc2 := acc ++ bufSlice out.1.2.1 out.1.1
    match out.1.2.2 with
    | some .eof => some (acc2, none)
    | some e => some (acc2, some e)
    | none => ioCopyLoop r fuel out.2 acc2

/-- The head reader of the full pipeline example of section 9 of the notes,
with `max := 3` as in the end-to-end scenario:
`HeaderOnce{r: Uppercase{r: CounterSource{max: 3}}}`. -/
def pipelineReader : Reader (Bool × CounterSource) :=
  HeaderOnce.reader (Uppercase.reader CounterSource.reader)

/-- Initial pipeline state: `done = false`, `CounterSource{i: 0, max: 3}`. -/
def pipelineInit : Bool × CounterSource := (false, ⟨0, 3⟩)

/-- The ASCII bytes of `"id,name\nVALUE-0\nVALUE-1\nVALUE-2\n"`. -/
def expectedPipelineBytes : List Nat :=
  [105, 100, 44, 110, 97, 109, 101, 10,
   86, 65, 76, 85, 69, 45, 48, 10,
   86, 65, 76, 85, 69, 45, 49, 10,
   86, 65, 76, 85, 69, 45, 50, 10]

/-- The results of a sequence of `Read` calls on `r` from state `s`, one
call per entry of `sizes` (the caller's buffer size for that call). -/
def readTrace {σ : Type} (r : Reader σ) : σ → List Nat → List ReadResult
  | _, [] => []
  | s, size :: rest =>
    let out := r.read s size
    out.1 :: readTrace r out.2 rest

/-- Drive `r` with one `Read` per entry of `sizes`, concatenating the bytes
delivered into the caller's buffers; stop at the first call that returns a
non-nil error (end-of-stream or failure). -/
def driveSizes {σ : Type} (r : Reader σ) : List Nat → σ → List Nat
  | [], _ => []
  | size :: rest, s =>
    let out := r.read s size
    match out.1.2.2 with
    | some _ => []
    | none => out.1.2.1 ++ driveSizes r rest out.2

/-- The full byte sequence a `CounterSource{max: M}` is constructed to
produce: records `"value-0\n"` through `"value-(M-1)\n"` in order. -/
def CounterSource.produced (M : Nat) : List Nat :=
  ((List.range M).map CounterSource.record).flatten

/-- C1: driving the pipeline `HeaderOnce (Uppercase (CounterSource max=3))`
with `io.Copy` to end-of-stream collects exactly
`"id,name\nVALUE-0\nVALUE-1\nVALUE-2\n"` (header first, then the three
uppercased records in order), terminating cleanly (nil error). -/
theorem C1_pipeline_end_to_end :
    ioCopyLoop pipelineReader 5 pipelineInit [] = some (expectedPipelineBytes, none) := by
  decide

/-- The result of the k-th `Read` call on a `CounterSource` started at
counter `i`: calls while the counter is below `max` deliver a prefix of the
current record and return its length with nil error; all later calls
return `(0, io.EOF)`. -/
lemma counter_trace_get (M : Nat) :
    ∀ (sizes : List Nat) (i k : Nat),
    (readTrace CounterSource.reader ⟨i, M⟩ sizes)[k]? =
      (sizes[k]?).map (fun s =>
        if i + k < M then
          (((CounterSource.record (i + k)).take s).length,
           (CounterSource.record (i + k)).take s, (none : Option IOError))
        else (0, [], some IOError.eof)) := by
  intro sizes
  induction sizes with
  | nil => intro i k; simp [readTrace]
  | cons s rest ih =>
    intro i k
    by_cases h : i < M
    · have hge : ¬ (i ≥ M) := by omega
      cases k with
      | zero =>
        simp [readTrace, CounterSource.reader, CounterSource.Read, hge, h]
      | succ k =>
        have heq : i + 1 + k = i + (k + 1) := by omega
        have hik := ih (i + 1) k
        rw [heq] at hik
        simp [CounterSource.reader] at hik
        simp [readTrace, CounterSource.reader, CounterSource.Read, hge, hik]
    · have hge : i ≥ M := by omega
      cases k with
      | zero =>
        simp [readTrace, CounterSource.reader, CounterSource.Read, hge, h]
      | succ k =>
        have h1 : ¬ (i + k < M) := by omega
        have h2 : ¬ (i + (k + 1) < M) := by omega
        have hik := ih i k
        simp [CounterSource.reader, h1] at hik
        simp [readTrace, CounterSource.reader, CounterSource.Read, hge, h2, hik]

/-- C10: a `CounterSource.Read` call below `max` advances `i` by exactly
one (and a call at or past `max` leaves it unchanged), and the k-th call
of any call sequence started at counter `i` delivers exactly the prefix
`record(i+k).take s` of the single record for the counter current at that
call (so a record's tail truncated by a small buffer is never returned by
any later call), with `io.EOF` from the (max - i)-th call on — i.e. after
exactly `max` non-terminal calls when started at `i = 0`. -/
theorem C10_counter_read_characterization (i M size k : Nat) (sizes : List Nat) :
    (CounterSource.Read ⟨i, M⟩ size).2 = ⟨if i < M then i + 1 else i, M⟩ ∧
    (readTrace CounterSource.reader ⟨i, M⟩ sizes)[k]? =
      (sizes[k]?).map (fun s =>
        if i + k < M then
          (((CounterSource.record (i + k)).take s).length,
           (CounterSource.record (i + k)).take s, (none : Option IOError))
        else (0, [], some IOError.eof)) := by
  constructor
  · by_cases h : i < M
    · have hge : ¬ (i ≥ M) := by omega
      simp [CounterSource.Read, hge, h]
    · have hge : i ≥ M := by omega
      simp [CounterSource.Read, hge, h]
  · exact counter_trace_get M sizes i k

/-- A `CounterSource` whose counter is at or past `max` answers every call
sequence with `(0, io.EOF)` and never changes state. -/
lemma counter_eof_forever (c : CounterSource) (h : c.i ≥ c.max) :
    ∀ sizes : List Nat,
    readTrace CounterSource.reader c sizes =
      sizes.map (fun _ => ((0, [], some IOError.eof) : ReadResult)) := by
  intro sizes
  induction sizes generalizing c with
  | nil => simp [readTrace]
  | cons s rest ih =>
    have hr := ih c h
    simp [readTrace, CounterSource.reader, CounterSource.Read, h] at hr ⊢
    exact hr

/-- C5: end-of-stream is sticky for `CounterSource`: once a `Read` call
signals `io.EOF`, every subsequent call, for every later sequence of
caller buffer sizes, again returns zero bytes and `io.EOF`. -/
theorem C5_eof_sticky (c : CounterSource) (size : Nat)
    (h : (CounterSource.Read c size).1.2.2 = some IOError.eof) :
    ∀ sizes : List Nat,
    readTrace CounterSource.reader (CounterSource.Read c size).2 sizes =
      sizes.map (fun _ => ((0, [], some IOError.eof) : ReadResult)) := by
  have hge : c.i ≥ c.max := by
    by_contra hlt
    simp [CounterSource.Read, hlt] at h
  have hst : (CounterSource.Read c size).2 = c := by
    simp [CounterSource.Read, hge]
  rw [hst]
  exact counter_eof_forever c hge

/-- Witness for C5 at `CounterSource{i: 0, max: 0}`, first call with a
4-byte buffer, then calls with buffer sizes 3 and 5. -/
theorem C5_eof_sticky_witness :
    (CounterSource.Read ⟨0, 0⟩ 4).1.2.2 = some IOError.eof ∧
    readTrace CounterSource.reader (CounterSource.Read ⟨0, 0⟩ 4).2 [3, 5] =
      [(0, [], some IOError.eof), (0, [], some IOError.eof)] :=
  ⟨by decide, C5_eof_sticky ⟨0, 0⟩ 4 (by decide) [3, 5]⟩

/-- C2 fails on the code: with caller buffers of size 1 (all ≥ 1), a
`CounterSource{max: 1}` run to end-of-stream (the second call signals
`io.EOF`) yields only the byte `"v"` — not the produced sequence
`"value-0\n"`: the record's tail is dropped when the buffer is small. -/
theorem C2_counterexample :
    (∀ s ∈ [1, 1], 1 ≤ s) ∧
    (readTrace CounterSource.reader ⟨0, 1⟩ [1, 1])[1]? =
      some (0, [], some IOError.eof) ∧
    driveSizes CounterSource.reader [1, 1] ⟨0, 1⟩ = [118] ∧
    CounterSource.produced 1 = [118, 97, 108, 117, 101, 45, 48, 10] ∧
    driveSizes CounterSource.reader [1, 1] ⟨0, 1⟩ ≠ CounterSource.produced 1 := by
  decide

/-- Driving a `CounterSource` from counter `i` with enough calls, each
buffer at least as long as every record, concatenates the remaining
records exactly. -/
lemma driveSizes_counter (M : Nat) :
    ∀ (sizes : List Nat) (i : Nat),
    (∀ s ∈ sizes, ∀ j, j < M → (CounterSource.record j).length ≤ s) →
    M - i < sizes.length →
    driveSizes CounterSource.reader sizes ⟨i, M⟩ =
      ((List.range' i (M - i)).map CounterSource.record).flatten := by
  intro sizes
  induction sizes with
  | nil => intro i _ hlen; simp at hlen
  | cons s rest ih =>
    intro i hs hlen
    by_cases h : i < M
    · have hge : ¬ (i ≥ M) := by omega
      have hrec : (CounterSource.record i).take s = CounterSource.record i :=
        List.take_of_length_le (hs s (by simp) i h)
      have hM : M - i = (M - (i + 1)) + 1 := by omega
      have hrest : driveSizes CounterSource.reader rest ⟨i + 1, M⟩ =
          ((List.range' (i + 1) (M - (i + 1))).map CounterSource.record).flatten := by
        apply ih (i + 1)
        · intro x hx j hj; exact hs x (by simp [hx]) j hj
        · simp at hlen; omega
      simp [CounterSource.reader] at hrest
      simp [driveSizes, CounterSource.reader, CounterSource.Read, hge, hrec, hrest,
        hM, List.range'_succ]
    · have hge : i ≥ M := by omega
      have hM : M - i = 0 := by omega
      simp [driveSizes, CounterSource.reader, CounterSource.Read, hge, hM]

/-- C2 amended: for the root `CounterSource{max: M}`, for every sequence of
caller buffer sizes in which each buffer is at least as long as every
record, with enough calls to reach end-of-stream, the concatenation of the
delivered chunks is exactly the produced sequence
`"value-0\n" ... "value-(M-1)\n"`; with smaller buffers, each call
truncates the current record to the buffer size and the tail is dropped
(see the counterexample), so the claim holds only under this buffer-size
condition, not for all sizes ≥ 1. -/
theorem C2_amended_concat_exact (M : Nat) (sizes : List Nat)
    (hs : ∀ s ∈ sizes, ∀ j, j < M → (CounterSource.record j).length ≤ s)
    (hlen : M < sizes.length) :
    driveSizes CounterSource.reader sizes ⟨0, M⟩ = CounterSource.produced M := by
  have h := driveSizes_counter M sizes 0 hs (by omega)
  simpa [CounterSource.produced, List.range_eq_range'] using h

/-- Witness for C2 amended: `max = 3`, four calls with 16-byte buffers
collect `"value-0\nvalue-1\nvalue-2\n"`. -/
theorem C2_amended_witness :
    (∀ s ∈ [16, 16, 16, 16], ∀ j, j < 3 → (CounterSource.record j).length ≤ s) ∧
    (3 : Nat) < 4 ∧
    driveSizes CounterSource.reader [16, 16, 16, 16] ⟨0, 3⟩ = CounterSource.produced 3 :=
  ⟨by decide, by decide, C2_amended_concat_exact 3 [16, 16, 16, 16] (by decide) (by decide)⟩

/-- Once its `done` flag is set, `HeaderOnce` is transparent: driving it is
driving the upstream reader. -/
lemma driveSizes_headerOnce_done {σ : Type} (r : Reader σ) :
    ∀ (sizes : List Nat) (s : σ),
    driveSizes (HeaderOnce.reader r) sizes (true, s) = driveSizes r sizes s := by
  intro sizes
  induction sizes with
  | nil => intro s; simp [driveSizes]
  | cons sz rest ih =>
    intro s
    simp only [HeaderOnce.reader] at ih
    rcases hr : r.read s sz with ⟨⟨n, bytes, err⟩, s2⟩
    cases err with
    | none => simp [driveSizes, HeaderOnce.reader, HeaderOnce.Read, hr, ih]
    | some e => simp [driveSizes, HeaderOnce.reader, HeaderOnce.Read, hr]

/-- C3 fails on the code: with a 1-byte buffer on the first call (L = 8),
the pipeline emits only the prologue byte `"i"` and then upstream bytes —
the remaining 7 prologue bytes `"d,name\n"` are dropped, because the first
call sets `done` without tracking an offset into the header. -/
theorem C3_counterexample :
    headerBytes.length = 8 ∧
    driveSizes pipelineReader [1, 8, 8, 8, 8] pipelineInit =
      [105,
       86, 65, 76, 85, 69, 45, 48, 10,
       86, 65, 76, 85, 69, 45, 49, 10,
       86, 65, 76, 85, 69, 45, 50, 10] ∧
    (driveSizes pipelineReader [1, 8, 8, 8, 8] pipelineInit).take 8 ≠ headerBytes := by
  decide

/-- C3 amended: for every upstream reader and every buffer-size sequence,
the bytes a fresh `HeaderOnce` delivers are exactly the first
`min(s0, 8)` bytes of the 8-byte prologue — where `s0` is the first
call's buffer size — followed only by upstream bytes.  Hence with every
buffer of size at least L = 8 the full prologue precedes any upstream
byte, but when the first buffer is smaller than L the transform does not
track an offset into the prologue: it emits only the truncated prefix and
delegates to upstream from the second call on, never emitting the
remainder. -/
theorem C3_amended_prologue_prefix {σ : Type} (r : Reader σ) (s : σ)
    (s0 : Nat) (rest : List Nat) :
    driveSizes (HeaderOnce.reader r) (s0 :: rest) (false, s) =
      headerBytes.take s0 ++ driveSizes r rest s := by
  have hd := driveSizes_headerOnce_done r rest s
  simp only [HeaderOnce.reader] at hd
  simp [driveSizes, HeaderOnce.reader, HeaderOnce.Read, hd]

/-- C9: the first `Read` on a fresh `HeaderOnce` sets `done`, and in the
`done` state every `Read` call returns exactly the wrapped reader's count,
bytes and error for the same buffer, with `done` still `true` and no state
other than the upstream's touched. -/
theorem C9_headerOnce_done_delegates {σ : Type} (r : Reader σ) (s : σ) (size : Nat)
    (s2 : σ) (size2 : Nat) :
    ((HeaderOnce.reader r).read (false, s) size).2.1 = true ∧
    (HeaderOnce.reader r).read (true, s2) size2 =
      ((r.read s2 size2).1, (true, (r.read s2 size2).2)) := by
  constructor
  · simp [HeaderOnce.reader, HeaderOnce.Read]
  · simp [HeaderOnce.reader, HeaderOnce.Read]

/-- `buf[0:n]` always has length `n`. -/
lemma bufSlice_length (bytes : List Nat) (n : Nat) : (bufSlice bytes n).length = n := by
  simp [bufSlice]
  omega

/-- C4 fails on the code: `Uppercase` over `CounterSource{max: 1}` with a
1-byte caller buffer reads 8 bytes upstream (`"value-0\n"`) and returns
count 8, but delivers only the single byte `"V"` into the caller's
buffer: delivered length 1 ≠ 8 read upstream. -/
theorem C4_counterexample :
    (Uppercase.Read CounterSource.reader ⟨0, 1⟩ 1).1.1 = 8 ∧
    (CounterSource.Read ⟨0, 1⟩ 4096).1.1 = 8 ∧
    (Uppercase.Read CounterSource.reader ⟨0, 1⟩ 1).1.2.1 = [86] ∧
    (Uppercase.Read CounterSource.reader ⟨0, 1⟩ 1).1.2.1.length ≠
      (CounterSource.Read ⟨0, 1⟩ 4096).1.1 := by
  decide

/-- C4 amended: every `Uppercase.Read` call returns exactly the count the
upstream `Read` returned, and delivers `min(size, n)` bytes into the
caller's buffer; hence the delivered length equals the upstream count for
every call in which the caller's buffer is at least that count (in
particular for buffers of size ≥ 4096), but for smaller buffers the call
over-reports: it delivers fewer bytes than it claims (see the
counterexample). -/
theorem C4_amended_length_preserving {σ : Type} (r : Reader σ) (s : σ) (size : Nat)
    (h : (r.read s 4096).1.1 ≤ size) :
    (Uppercase.Read r s size).1.1 = (r.read s 4096).1.1 ∧
    (Uppercase.Read r s size).1.2.1.length = (r.read s 4096).1.1 := by
  constructor
  · simp [Uppercase.Read]
  · simp [Uppercase.Read, bufSlice_length]
    omega

/-- Witness for C4 amended: `Uppercase` over `CounterSource{i: 0, max: 1}`
with a 4096-byte caller buffer returns count 8 and delivers 8 bytes. -/
theorem C4_amended_witness :
    (CounterSource.reader.read ⟨0, 1⟩ 4096).1.1 ≤ 4096 ∧
    (Uppercase.Read CounterSource.reader ⟨0, 1⟩ 4096).1.1 =
      (CounterSource.reader.read ⟨0, 1⟩ 4096).1.1 ∧
    (Uppercase.Read CounterSource.reader ⟨0, 1⟩ 4096).1.2.1.length =
      (CounterSource.reader.read ⟨0, 1⟩ 4096).1.1 :=
  ⟨by decide, C4_amended_length_preserving CounterSource.reader ⟨0, 1⟩ 4096 (by decide)⟩

/-- Terminal status of a Pipeline Driver run, with the cancelled status a
constructor of its own, distinct from every error report. -/
inductive DriverStatus where
  | completed
  | cancelled
  | failed (e : IOError)
  deriving DecidableEq, Repr

/-- The primitive operations a Driver performs on its stages. -/
inductive DriverOp where
  | fill
  | accept
  | flushOp
  deriving DecidableEq, Repr

/-- Modelled from the spec: the Pipeline Driver of section 4.4 — the copy
loop with cooperative cancellation is not implemented under src/ (the
notes delegate to the stdlib copy loop and show a separate
context-cancellation snippet), so it follows the spec's words: loop —
check the Cancellation Signal at the top of every iteration and on
cancellation terminate with the cancelled status; else fill into the
buffer; on end-of-stream flush sink-internal buffering and terminate
successfully; on error terminate and propagate; otherwise accept into the
sink (modelled as a collecting sink) and loop.  `cancelled t` is the
signal as observed at the top of iteration `t`; `out` the bytes the sink
has accepted; `ops` records every fill/accept/flush performed; `none`
means fuel ran out. -/
def driverLoop {σ : Type} (r : Reader σ) (cancelled : Nat → Bool) :
    Nat → Nat → σ → List Nat → List DriverOp →
    Option (DriverStatus × σ × List Nat × List DriverOp)
  | 0, t, s, out, ops =>
    if cancelled t then some (.cancelled, s, out, ops) else none
  | fuel + 1, t, s, out, ops =>
    if cancelled t then some (.cancelled, s, out, ops)
    else
      let o := r.read s 32768
      let chunk := bufSlice o.1.2.1 o.1.1
      match o.1.2.2 with
      | some .eof => some (.completed, o.2, out ++ chunk, ops ++ [.fill, .flushOp])
      | some e => some (.failed e, o.2, out ++ chunk, ops ++ [.fill])
      | none => driverLoop r cancelled fuel (t + 1) o.2 (out ++ chunk) (ops ++ [.fill, .accept])

/-- C6: the Driver's cancellation check is the first thing in every loop
iteration: whenever the signal reads true at the top of an iteration, the
run terminates immediately with the cancelled status, performing no
further fill or accept call (the source state, collected output and
operation log are exactly as at the top of that iteration), and the
cancelled status is distinct from every error status and from successful
completion. -/
theorem C6_driver_checks_cancellation {σ : Type} (r : Reader σ)
    (cancelled : Nat → Bool) (fuel t : Nat) (s : σ) (out : List Nat)
    (ops : List DriverOp) (h : cancelled t = true) :
    driverLoop r cancelled fuel t s out ops = some (.cancelled, s, out, ops) ∧
    (∀ e : IOError, DriverStatus.cancelled ≠ DriverStatus.failed e) ∧
    DriverStatus.cancelled ≠ DriverStatus.completed := by
  refine ⟨?_, ?_, ?_⟩
  · cases fuel <;> simp [driverLoop, h]
  · intro e
    simp
  · simp

/-- Witness for C6: with the signal set, a driver over
`CounterSource{i: 0, max: 3}` mid-run returns cancelled at once. -/
theorem C6_driver_checks_cancellation_witness :
    (fun _ : Nat => true) 2 = true ∧
    (driverLoop CounterSource.reader (fun _ => true) 3 2 ⟨0, 3⟩ [7] [DriverOp.fill] =
      some (DriverStatus.cancelled, ⟨0, 3⟩, [7], [DriverOp.fill]) ∧
    (∀ e : IOError, DriverStatus.cancelled ≠ DriverStatus.failed e) ∧
    DriverStatus.cancelled ≠ DriverStatus.completed) :=
  ⟨rfl, C6_driver_checks_cancellation CounterSource.reader (fun _ => true) 3 2 ⟨0, 3⟩
    [7] [DriverOp.fill] rfl⟩

/-- Modelled from the spec: the buffered Sink decorator of section 4.5 —
the notes use the stdlib buffered writer, whose implementation is not
under src/, so it follows the spec's words: a decorator that accumulates
into a private Buffer of capacity `cap` until it is full, then flushes the
whole Buffer downstream; `downstream` holds the bytes already written to
the wrapped sink. -/
structure BufSink where
  cap : Nat
  buf : List Nat
  downstream : List Nat
  deriving DecidableEq, Repr

/-- Accept one byte: append to the private buffer, flushing the whole
buffer downstream once it reaches capacity. -/
def BufSink.acceptByte (w : BufSink) (b : Nat) : BufSink :=
  if w.cap ≤ w.buf.length + 1 then ⟨w.cap, [], w.downstream ++ w.buf ++ [b]⟩
  else ⟨w.cap, w.buf ++ [b], w.downstream⟩

/-- Accept a chunk of bytes, batching through the private buffer. -/
def BufSink.accept (w : BufSink) (data : List Nat) : BufSink :=
  data.foldl BufSink.acceptByte w

/-- The explicit flush operation: write the pending partial batch to the
wrapped downstream sink. -/
def BufSink.flush (w : BufSink) : BufSink := ⟨w.cap, [], w.downstream ++ w.buf⟩

/-- Modelled from the spec: the Driver of section 4.4 writing through the
buffered Sink and invoking its explicit flush at end-of-stream. -/
def driverBuf {σ : Type} (r : Reader σ) : Nat → σ → BufSink → Option (DriverStatus × σ × BufSink)
  | 0, _, _ => none
  | fuel + 1, s, w =>
    let o := r.read s 32768
    let chunk := bufSlice o.1.2.1 o.1.1
    match o.1.2.2 with
    | some .eof => some (.completed, o.2, (BufSink.accept w chunk).flush)
    | some e => some (.failed e, o.2, BufSink.accept w chunk)
    | none => driverBuf r fuel o.2 (BufSink.accept w chunk)

/-- The concatenation of the chunks the head Source yields up to
end-of-stream, read with the Driver's 32768-byte buffer; `none` if an
error occurs or fuel runs out first. -/
def sourceOut {σ : Type} (r : Reader σ) : Nat → σ → Option (List Nat)
  | 0, _ => none
  | fuel + 1, s =>
    let o := r.read s 32768
    let chunk := bufSlice o.1.2.1 o.1.1
    match o.1.2.2 with
    | some .eof => some chunk
    | some _ => none
    | none => (sourceOut r fuel o.2).map (fun tail => chunk ++ tail)

/-- Accepting one byte preserves the buffered sink's total content
(downstream plus pending) and its capacity. -/
lemma bufSink_acceptByte_inv (w : BufSink) (b : Nat) :
    (BufSink.acceptByte w b).downstream ++ (BufSink.acceptByte w b).buf =
      w.downstream ++ w.buf ++ [b] ∧ (BufSink.acceptByte w b).cap = w.cap := by
  by_cases hc : w.cap ≤ w.buf.length + 1 <;> simp [BufSink.acceptByte, hc]

/-- Accepting a chunk preserves the buffered sink's total content and
capacity. -/
lemma bufSink_accept_inv :
    ∀ (data : List Nat) (w : BufSink),
    (BufSink.accept w data).downstream ++ (BufSink.accept w data).buf =
      w.downstream ++ w.buf ++ data ∧ (BufSink.accept w data).cap = w.cap := by
  intro data
  induction data with
  | nil => intro w; simp [BufSink.accept]
  | cons b rest ih =>
    intro w
    have hstep := bufSink_acceptByte_inv w b
    have htail := ih (BufSink.acceptByte w b)
    constructor
    · calc (BufSink.accept w (b :: rest)).downstream ++ (BufSink.accept w (b :: rest)).buf
          = (BufSink.accept (BufSink.acceptByte w b) rest).downstream ++
            (BufSink.accept (BufSink.acceptByte w b) rest).buf := by
            simp [BufSink.accept]
      _ = (BufSink.acceptByte w b).downstream ++ (BufSink.acceptByte w b).buf ++ rest :=
            htail.1
      _ = (w.downstream ++ w.buf ++ [b]) ++ rest := by rw [hstep.1]
      _ = w.downstream ++ w.buf ++ (b :: rest) := by simp
    · calc (BufSink.accept w (b :: rest)).cap
          = (BufSink.accept (BufSink.acceptByte w b) rest).cap := by simp [BufSink.accept]
      _ = (BufSink.acceptByte w b).cap := htail.2
      _ = w.cap := hstep.2

/-- C7: when a driver run through the buffered sink terminates in
end-of-stream, the final flush has emptied the private buffer and the
wrapped downstream sink has received every byte the sink was holding or
accepted during the run — including the final partial batch — in order:
nothing remains unflushed. -/
theorem C7_buffered_flush_at_eof {σ : Type} (r : Reader σ) (fuel : Nat) (s : σ)
    (w : BufSink) (out : List Nat) (h : sourceOut r fuel s = some out) :
    (driverBuf r fuel s w).map (fun p => (p.1, p.2.2.buf, p.2.2.downstream)) =
      some (DriverStatus.completed, [], w.downstream ++ w.buf ++ out) := by
  induction fuel generalizing s w out with
  | zero => simp [sourceOut] at h
  | succ fuel ih =>
    rcases hr : r.read s 32768 with ⟨⟨n, bytes, err⟩, s2⟩
    cases err with
    | none =>
      rw [sourceOut] at h
      simp only [hr] at h
      rcases Option.map_eq_some'.mp h with ⟨tail, htail, hout⟩
      have hrec := ih s2 (BufSink.accept w (bufSlice bytes n)) tail htail
      rw [driverBuf]
      simp only [hr]
      rw [hrec]
      have hinv := bufSink_accept_inv (bufSlice bytes n) w
      simp [hinv.1, ← hout]
    | some e =>
      cases e with
      | eof =>
        rw [sourceOut] at h
        simp only [hr] at h
        have hbo : bufSlice bytes n = out := by simpa using h
        rw [driverBuf]
        simp only [hr]
        have hinv := bufSink_accept_inv (bufSlice bytes n) w
        rw [hbo] at hinv
        simp [BufSink.flush, hbo, hinv.1]
      | other code =>
        rw [sourceOut] at h
        simp only [hr] at h
        simp at h

/-- Witness for C7: `CounterSource{max: 1}` through a buffered sink of
capacity 4 that already holds the pending bytes `[1, 2]`: at end-of-stream
everything, including the trailing partial batch, is downstream. -/
theorem C7_buffered_flush_at_eof_witness :
    sourceOut CounterSource.reader 2 ⟨0, 1⟩ =
      some [118, 97, 108, 117, 101, 45, 48, 10] ∧
    (driverBuf CounterSource.reader 2 ⟨0, 1⟩ ⟨4, [1, 2], [9]⟩).map
        (fun p => (p.1, p.2.2.buf, p.2.2.downstream)) =
      some (DriverStatus.completed, [],
        [9, 1, 2, 118, 97, 108, 117, 101, 45, 48, 10]) :=
  ⟨by decide, C7_buffered_flush_at_eof CounterSource.reader 2 ⟨0, 1⟩ ⟨4, [1, 2], [9]⟩
    [118, 97, 108, 117, 101, 45, 48, 10] (by decide)⟩

/-- Modelled from the spec: the Pipe of sections 3 and 4.3 — the stdlib
in-memory pipe's implementation is not under src/, so it follows the
spec's words: a bounded internal queue of pending bytes with a closed
flag; once closed no further write succeeds, but already-queued bytes
remain readable until drained, after which reads report end-of-stream.
Blocking is not modelled: a read on an empty, still-open pipe (which would
suspend the consumer) is represented as a zero-byte nil result and never
occurs in the drain-after-close scenario proved below. -/
structure Pipe where
  queue : List Nat
  closed : Bool
  deriving DecidableEq, Repr

/-- Producer side: append to the queue; fails once the pipe is closed. -/
def Pipe.write (p : Pipe) (data : List Nat) : (Nat × Option IOError) × Pipe :=
  if p.closed then ((0, some (.other 1)), p)
  else ((data.length, none), ⟨p.queue ++ data, p.closed⟩)

/-- Close the write side. -/
def Pipe.close (p : Pipe) : Pipe := ⟨p.queue, true⟩

/-- Consumer side: deliver up to `size` queued bytes in FIFO order;
end-of-stream only once the pipe is closed and the queue is drained. -/
def Pipe.readEnd (p : Pipe) (size : Nat) : ReadResult × Pipe :=
  if p.queue.isEmpty then
    if p.closed then ((0, [], some .eof), p) else ((0, [], none), p)
  else
    let chunk := p.queue.take size
    ((chunk.length, chunk, none), ⟨p.queue.drop size, p.closed⟩)

/-- Repeatedly read `size`-byte chunks from the pipe, concatenating the
delivered bytes; the flag is `true` when end-of-stream was observed and
`false` when fuel ran out first. -/
def Pipe.drain : Nat → Pipe → Nat → List Nat × Bool
  | 0, _, _ => ([], false)
  | fuel + 1, p, size =>
    let o := Pipe.readEnd p size
    match o.1.2.2 with
    | some .eof => ([], true)
    | _ =>
      let rest := Pipe.drain fuel o.2 size
      (o.1.2.1 ++ rest.1, rest.2)

/-- Draining a closed pipe returns its whole queue in order, then
end-of-stream. -/
lemma pipe_drain_closed :
    ∀ (fuel : Nat) (q : List Nat) (size : Nat), 1 ≤ size → q.length < fuel →
    Pipe.drain fuel ⟨q, true⟩ size = (q, true) := by
  intro fuel
  induction fuel with
  | zero => intro q size _ hlen; omega
  | succ fuel ih =>
    intro q size hsize hlen
    cases q with
    | nil => simp [Pipe.drain, Pipe.readEnd]
    | cons b rest =>
      have hrec := ih ((b :: rest).drop size) size hsize (by
        have : ((b :: rest).drop size).length = (b :: rest).length - size := by
          simp
        simp at hlen ⊢
        omega)
      simp only [Pipe.drain, Pipe.readEnd]
      simp [hrec]

/-- C8: if the producer writes `data` into a fresh open pipe (the write
succeeds in full) and then closes the write side, the consumer's
subsequent reads — with any positive chunk size and enough calls — return
exactly `data` in the order written, and end-of-stream is reported only
after the queue is drained: no queued byte is lost by closing. -/
theorem C8_pipe_close_preserves_queue (data : List Nat) (size fuel : Nat)
    (hsize : 1 ≤ size) (hfuel : data.length < fuel) :
    (Pipe.write ⟨[], false⟩ data).1 = (data.length, none) ∧
    Pipe.drain fuel (Pipe.close (Pipe.write ⟨[], false⟩ data).2) size = (data, true) := by
  constructor
  · simp [Pipe.write]
  · have : Pipe.close (Pipe.write ⟨[], false⟩ data).2 = ⟨data, true⟩ := by
      simp [Pipe.write, Pipe.close]
    rw [this]
    exact pipe_drain_closed fuel data size hsize hfuel

/-- Witness for C8: the producer writes `"hello"` and closes; reads of
2 bytes drain `"hello"` then see end-of-stream. -/
theorem C8_pipe_close_preserves_queue_witness :
    (1 : Nat) ≤ 2 ∧ ([104, 101, 108, 108, 111] : List Nat).length < 6 ∧
    ((Pipe.write ⟨[], false⟩ [104, 101, 108, 108, 111]).1 = (5, none) ∧
     Pipe.drain 6 (Pipe.close (Pipe.write ⟨[], false⟩ [104, 101, 108, 108, 111]).2) 2 =
       ([104, 101, 108, 108, 111], true)) :=
  ⟨by decide, by decide,
    C8_pipe_close_preserves_queue [104, 101, 108, 108, 111] 2 6 (by decide) (by decide)⟩
